import Mathlib

/-!
Verification of the penalty-kick analysis pipeline (OfTwoMindsSoccer).

Shallow embedding of the statistical routines of `src/analysis/`:
Wilson confidence interval, mismatch classification, sequential-pair
construction over the Bundesliga match grouping, risk-difference
estimation, likelihood-ratio comparison, quadratic-peak extraction,
and the LaTeX stat ledger.

Python floats are modelled as exact rationals; a float `NaN` produced by
a degenerate statistical input is modelled as `Option.none`; `np.sqrt`
is abstracted as a function argument `sq : ℚ → ℚ` constrained (in the
theorems that need it) by the defining equations of a square root at the
point where the code applies it.  Code that can raise a Python exception
is embedded in `Except String`; straight-line code that cannot raise is
embedded as a total function.
-/

namespace OfTwoMinds

/-! ### Wilson confidence interval

From `_wilson_ci` in `prediction1_within_vs_cross_axis.py` (lines 25-33)
and identically in `prediction2_sequential.py` (lines 33-41):

    if n == 0:
        return 0.0, 0.0, 0.0
    p = k / n
    denom = 1 + z**2 / n
    centre = (p + z**2 / (2 * n)) / denom
    margin = z * np.sqrt((p * (1 - p) + z**2 / (4 * n)) / n) / denom
    return p, max(0, centre - margin), min(1, centre + margin)
-/

def wilson_ci (sq : ℚ → ℚ) (k n : ℕ) (z : ℚ) : ℚ × ℚ × ℚ :=
  if n = 0 then (0, 0, 0)
  else
    let p : ℚ := (k : ℚ) / (n : ℚ)
    let denom : ℚ := 1 + z ^ 2 / (n : ℚ)
    let centre : ℚ := (p + z ^ 2 / (2 * (n : ℚ))) / denom
    let margin : ℚ := z * sq ((p * (1 - p) + z ^ 2 / (4 * (n : ℚ))) / (n : ℚ)) / denom
    (p, max 0 (centre - margin), min 1 (centre + margin))

/-- The argument the code hands to `np.sqrt`. -/
def wilson_arg (k n : ℕ) (z : ℚ) : ℚ :=
  ((k : ℚ) / n * (1 - (k : ℚ) / n) + z ^ 2 / (4 * (n : ℚ))) / (n : ℚ)

/-! ### Mismatch classifier

From `classify_mismatch` in `prediction1_within_vs_cross_axis.py`
(lines 36-45):

    ks, gs = row["Kicker_Side"], row["Goalie_Side"]
    if ks == gs:
        return "Match"
    if {ks, gs} == {"L", "R"}:
        return "Within-axis\nmismatch"
    return "Cross-axis\nmismatch"
-/

def classify_mismatch (ks gs : String) : String :=
  if ks = gs then "Match"
  else if ({ks, gs} : Finset String) = {"L", "R"} then "Within-axis\nmismatch"
  else "Cross-axis\nmismatch"

/-! ### Sequential-pair construction

From `run` in `prediction2_sequential.py` (lines 56-78):

    df["club_pair"] = df.apply(
        lambda r: "_".join(sorted([str(r["gkclub"]), str(r["ptclub"])])), axis=1)
    df["match_id"] = df["date"].astype(str) + "_" + df["club_pair"]
    df = df.sort_values(["match_id", "minute"]).reset_index(drop=True)
    match_counts = df.groupby("match_id").size()
    multi_matches = match_counts[match_counts >= 2].index
    df_multi = df[df["match_id"].isin(multi_matches)].copy()
    df_multi["prev_goal"] = df_multi.groupby("match_id")["goal"].shift(1)
    df_pairs = df_multi.dropna(subset=["prev_goal"]).copy()

`groupby(match_id)` collects the rows of one derived match key; within a
group the rows stand in `minute` order (the sort key is
`(match_id, minute)`), and `shift(1)` pairs each row with its predecessor
inside its own group, the group's first row getting no predecessor and
being dropped by `dropna`. -/

structure BRow where
  date : String
  gkclub : String
  ptclub : String
  minute : Int
  result : String
deriving DecidableEq

/-- Code-point lexicographic comparison, the order Python's `sorted`
uses on strings. -/
def charListLe : List Char → List Char → Bool
  | [], _ => true
  | _ :: _, [] => false
  | a :: as, b :: bs => if a = b then charListLe as bs else decide (a.toNat < b.toNat)

def strLe (a b : String) : Bool :=
  charListLe a.data b.data

/-- `"_".join(sorted([gkclub, ptclub]))`. -/
def clubPair (r : BRow) : String :=
  if strLe r.gkclub r.ptclub then r.gkclub ++ "_" ++ r.ptclub
  else r.ptclub ++ "_" ++ r.gkclub

/-- `date + "_" + club_pair`. -/
def matchId (r : BRow) : String :=
  r.date ++ "_" ++ clubPair r

def insertByMinute (r : BRow) : List BRow → List BRow
  | [] => [r]
  | s :: t => if r.minute ≤ s.minute then r :: s :: t else s :: insertByMinute r t

/-- Stable sort of a match group by `minute` (the second sort key of
`sort_values(["match_id", "minute"])`). -/
def sortByMinute : List BRow → List BRow
  | [] => []
  | r :: t => insertByMinute r (sortByMinute t)

/-- The rows of the match group keyed `m`, in minute order. -/
def groupOf (df : List BRow) (m : String) : List BRow :=
  sortByMinute (df.filter (fun r => matchId r = m))

/-- The `(previous row, current row)` pairs `shift(1)`/`dropna` produce
inside the group keyed `m`: each row of the group zipped with its
immediate predecessor. -/
def pairsOfMatch (df : List BRow) (m : String) : List (BRow × BRow) :=
  (groupOf df m).zip (groupOf df m).tail

/-- The distinct derived match keys of the dataset. -/
def matchIds (df : List BRow) : List String :=
  (df.map matchId).dedup

def seqPairsAux (df : List BRow) : List String → List (BRow × BRow)
  | [] => []
  | m :: ms =>
      (if 2 ≤ (groupOf df m).length then pairsOfMatch df m else [])
        ++ seqPairsAux df ms

/-- All sequential pairs of the dataset: groups with at least two
penalties (the `match_counts >= 2` filter) contribute their pairs. -/
def seqPairs (df : List BRow) : List (BRow × BRow) :=
  seqPairsAux df (matchIds df)

/-- Example rows: one match with kicks at minutes 10, 45, 80 (the club
columns of the second row are swapped to exercise the sorted club pair)
and a second match with a single kick. -/
def bRow1 : BRow := ⟨"1965-08-14", "FCA", "FCB", 10, "Tor"⟩

def bRow2 : BRow := ⟨"1965-08-14", "FCB", "FCA", 45, "gehalten"⟩

def bRow3 : BRow := ⟨"1965-08-14", "FCA", "FCB", 80, "Tor"⟩

def bRowSolo : BRow := ⟨"1970-01-01", "XX", "YY", 30, "vorbei"⟩

def exDf : List BRow := [bRow3, bRow1, bRowSolo, bRow2]

/-! ### Risk difference with 95% CI

From `run` in `prediction2_sequential.py` (lines 94-112):

    goal_after_goal = df_pairs[df_pairs["prev_goal"] == 1]["goal"].mean()
    goal_after_nongoal = df_pairs[df_pairs["prev_goal"] == 0]["goal"].mean()
    n_after_goal = len(df_pairs[df_pairs["prev_goal"] == 1])
    n_after_nongoal = len(df_pairs[df_pairs["prev_goal"] == 0])
    risk_diff = goal_after_goal - goal_after_nongoal
    se_rd = np.sqrt(
        goal_after_goal * (1 - goal_after_goal) / n_after_goal +
        goal_after_nongoal * (1 - goal_after_nongoal) / n_after_nongoal)
    rd_ci_lo = risk_diff - 1.96 * se_rd
    rd_ci_hi = risk_diff + 1.96 * se_rd

A pandas mean over an empty group is float `NaN`, and every arithmetic
operation on it (including the division by the zero group size) yields
`NaN` without raising; `NaN` is modelled as `Option.none`.  A dataset
row is modelled as its `(prev_goal, goal)` bit pair. -/

def goalsAfter (b : Bool) (df : List (Bool × Bool)) : List Bool :=
  (df.filter fun r => r.1 == b).map fun r => r.2

def nAfter (b : Bool) (df : List (Bool × Bool)) : ℕ :=
  (goalsAfter b df).length

def meanBool (l : List Bool) : Option ℚ :=
  if l.length = 0 then none
  else some ((l.countP (fun b => b) : ℚ) / (l.length : ℚ))

def goalAfterGoal (df : List (Bool × Bool)) : Option ℚ :=
  meanBool (goalsAfter true df)

def goalAfterNonGoal (df : List (Bool × Bool)) : Option ℚ :=
  meanBool (goalsAfter false df)

def riskDiff (df : List (Bool × Bool)) : Option ℚ :=
  match goalAfterGoal df, goalAfterNonGoal df with
  | some p1, some p2 => some (p1 - p2)
  | _, _ => none

def seRD (sq : ℚ → ℚ) (df : List (Bool × Bool)) : Option ℚ :=
  match goalAfterGoal df, goalAfterNonGoal df with
  | some p1, some p2 =>
      some (sq (p1 * (1 - p1) / (nAfter true df : ℚ)
        + p2 * (1 - p2) / (nAfter false df : ℚ)))
  | _, _ => none

def rdCiLo (sq : ℚ → ℚ) (df : List (Bool × Bool)) : Option ℚ :=
  match riskDiff df, seRD sq df with
  | some rd, some se => some (rd - 1.96 * se)
  | _, _ => none

def rdCiHi (sq : ℚ → ℚ) (df : List (Bool × Bool)) : Option ℚ :=
  match riskDiff df, seRD sq df with
  | some rd, some se => some (rd + 1.96 * se)
  | _, _ => none

/-! ### Likelihood-ratio comparison

From `run` in `prediction4_expertise_blindspots.py` (lines 64-79):

    mod_lin = smf.logit("saved ~ gkexp", data=df).fit(disp=0)
    mod_quad = smf.logit("saved ~ gkexp + gkexp2", data=df).fit(disp=0)
    lr_stat = -2 * (mod_lin.llf - mod_quad.llf)
    lr_p = chi2.sf(lr_stat, df=1)

The comparison inspects nothing but the two log-likelihoods: there is no
check of the models' parameter sets and no raise on these lines, so its
embedding into `Except` is the always-`ok` computation `lrCompare`. -/

def lrStat (llfR llfF : ℚ) : ℚ :=
  -2 * (llfR - llfF)

structure FittedLogit where
  params : List String
  llf : ℚ
deriving DecidableEq

def lrCompare (r f : FittedLogit) : Except String ℚ :=
  Except.ok (lrStat r.llf f.llf)

/-- Strict subset test on parameter lists. -/
def strictSubsetB (a b : List String) : Bool :=
  a.all (fun x => b.contains x) && b.any (fun y => ! a.contains y)

/-- Parameter set of the patsy formula `"saved ~ gkexp"` (statsmodels
adds the intercept), per the `mod_lin.params[...]` accesses on lines
94-95. -/
def linParams : List String := ["Intercept", "gkexp"]

/-- Parameter set of `"saved ~ gkexp + gkexp2"`, per line 87. -/
def quadParams : List String := ["Intercept", "gkexp", "gkexp2"]

/-- The linear logit model embedded in the quadratic family: the
quadratic family at `gkexp2` coefficient `0`. -/
def quadOfLin (b : ℚ × ℚ) : ℚ × ℚ × ℚ := (b.1, b.2, 0)

/-! ### Quadratic-peak extraction

From `run` in `prediction4_expertise_blindspots.py` (lines 87-100):

    b0, b1, b2 = mod_quad.params[...]
    if b2 != 0:
        peak_exp = -b1 / (2 * b2)
    else:
        peak_exp = float("nan")
    ...
    add_stat("PredFourPeakExp", f"PEAK:.1f")

(the f-string format of a float `NaN` is the string `"nan"`). -/

def peakExp (b1 b2 : ℚ) : Option ℚ :=
  if b2 ≠ 0 then some (-b1 / (2 * b2)) else none

/-- The quadratic in log-odds space, `logit_quad = b0 + b1*x + b2*x**2`
(line 124). -/
def quadLogOdds (b0 b1 b2 x : ℚ) : ℚ :=
  b0 + b1 * x + b2 * x ^ 2

/-- The string registered for `PredFourPeakExp`: the `.1f`-formatting of
a genuine number is abstracted as `fmt`; `NaN` formats as `"nan"`. -/
def peakStat (fmt : ℚ → String) (b1 b2 : ℚ) : String :=
  match peakExp b1 b2 with
  | some v => fmt v
  | none => "nan"

/-! ### Fit-failure handling at the three logistic-regression sites

`prediction2_sequential.py` lines 148-157 wrap the fit:

    try:
        mod = smf.logit(...).fit(disp=0)
        logit_coef = mod.params["prev_goal"]
        logit_p = mod.pvalues["prev_goal"]
    except Exception as e:
        logit_coef = 0.0
        logit_p = 1.0

`prediction4_expertise_blindspots.py` lines 64-66 and
`prediction6_precommitment.py` line 86 call `.fit(disp=0)` with no
`try`/`except`: an exception propagates and aborts the module.  A fit
outcome is modelled as `Except String M`. -/

def pred2LogitStats (fit : Except String (ℚ × ℚ)) : ℚ × ℚ :=
  match fit with
  | Except.ok cp => cp
  | Except.error _ => (0, 1)

def pred4FitStage {M : Type} (fitLin fitQuad : Except String M) :
    Except String (M × M) := do
  let a ← fitLin
  let b ← fitQuad
  return (a, b)

def pred6FitStage {M : Type} (stats : M → ℚ × ℚ × ℚ × ℚ)
    (fit : Except String M) : Except String (ℚ × ℚ × ℚ × ℚ) :=
  fit.map stats

/-! ### LaTeX stat ledger

From `add_stat` in `utils.py` (lines 65-81):

    safe = (str(value)
        .replace("\\", "\\textbackslash-open-close")
        .replace("_", "\\_").replace("&", "\\&")
        .replace("#", "\\#").replace("$", "\\$"))
    safe = safe.replace("%", "\\%")
    _stat_lines.append("\\newcommand" ... name ... safe ...)

(the replacement for the backslash is `\textbackslash` followed by an
open and a close brace).  `str.replace` scans left to right replacing
non-overlapping occurrences and never rescans replaced text;
`replaceAll` below is exactly that. -/

def replaceAll (p r : List Char) (s : List Char) : List Char :=
  if h : p ≠ [] ∧ p.isPrefixOf s then
    r ++ replaceAll p r (s.drop p.length)
  else
    match s with
    | [] => []
    | c :: t => c :: replaceAll p r t
termination_by s.length
decreasing_by
  · have hp : 0 < p.length := List.length_pos.mpr h.1
    have hs : p.length ≤ s.length := (List.isPrefixOf_iff_prefix.mp h.2).length_le
    simp only [List.length_drop]
    omega
  · simp

/-- The 16 characters of `\textbackslash` + open brace + close brace. -/
def texBackslash : List Char :=
  ['\\', 't', 'e', 'x', 't', 'b', 'a', 'c', 'k', 's', 'l', 'a', 's', 'h',
   '\x7b', '\x7d']

def escapeChars (s : List Char) : List Char :=
  replaceAll ['%'] ['\\', '%']
    (replaceAll ['$'] ['\\', '$']
      (replaceAll ['#'] ['\\', '#']
        (replaceAll ['&'] ['\\', '&']
          (replaceAll ['_'] ['\\', '_']
            (replaceAll ['\\'] texBackslash s)))))

/-- Inversion of the five replacements in the reverse of the order the
code applies them. -/
def unescapeChars (s : List Char) : List Char :=
  replaceAll texBackslash ['\\']
    (replaceAll ['\\', '_'] ['_']
      (replaceAll ['\\', '&'] ['&']
        (replaceAll ['\\', '#'] ['#']
          (replaceAll ['\\', '$'] ['$']
            (replaceAll ['\\', '%'] ['%'] s)))))

def escape (s : String) : String := ⟨escapeChars s.data⟩

def unescape (s : String) : String := ⟨unescapeChars s.data⟩

/-- One registered macro line,
`newcommand-open-backslash-name-close-open-escaped-value-close`. -/
def statLine (name value : String) : String :=
  "\\newcommand\x7b\\" ++ name ++ "\x7d\x7b" ++ escape value ++ "\x7d"

/-- The ledger after registering the given `(name, value)` pairs in
order: one line per `add_stat` call. -/
def addStats (pairs : List (String × String)) : List String :=
  pairs.map fun pr => statLine pr.1 pr.2

/-- Substitution applied characterwise; `replaceAll` with a one-char
pattern coincides with it. -/
def expand (f : Char → List Char) : List Char → List Char
  | [] => []
  | c :: t => f c ++ expand f t

/-! ### Stat macro names registered by the full pipeline

`run_all.py` `main` (lines 27-51) runs, in order, prediction modules 1,
2, 4, 5, 6 on one shared ledger.  Each list below is the sequence of
first arguments of the `add_stat` calls of one module, in program order.
The two branches of prediction 2's Part B register the same three names,
so the name sequence of a run does not depend on the branch taken. -/

def pred1StatNames : List String :=
  ["PredOneNTotal", "PredOneNWithin", "PredOneNCross", "PredOneNMatch",
   "PredOneConvWithin", "PredOneConvCross", "PredOneConvMatch",
   "PredOneFisherOR", "PredOneFisherP", "PredOneChiSq", "PredOneChiP"]

def pred2StatNames : List String :=
  ["PredTwoNMultiMatches", "PredTwoNPairs", "PredTwoGoalAfterGoal",
   "PredTwoGoalAfterSave", "PredTwoNAfterGoal", "PredTwoNAfterSave",
   "PredTwoChiSq", "PredTwoChiP", "PredTwoRiskDiff", "PredTwoRiskDiffCILo",
   "PredTwoRiskDiffCIHi", "PredTwoLogitCoef", "PredTwoLogitP",
   "PredTwoGoalAfterSaveOnly", "PredTwoGoalAfterMiss",
   "PredTwoKaggleNSameMatch", "PredTwoKaggleRepeatRate", "PredTwoKaggleBinomP"]

def pred4StatNames : List String :=
  ["PredFourNTotal", "PredFourOverallSave", "PredFourLinCoef", "PredFourLinP",
   "PredFourQuadCoef", "PredFourQuadP", "PredFourLRChi", "PredFourLRP",
   "PredFourPeakExp", "PredFourAICLin", "PredFourAICQuad",
   "PredFourSpearmanRho", "PredFourSpearmanP"]

def pred5StatNames : List String :=
  ["PredFiveNCentral", "PredFiveNDive", "PredFiveConvCentral",
   "PredFiveConvDive", "PredFiveFisherOR", "PredFiveFisherP",
   "PredFiveZStat", "PredFiveZP"]

def pred6StatNames : List String :=
  ["PredSixNNatural", "PredSixNUnnatural", "PredSixNCentre",
   "PredSixConvNatural", "PredSixConvUnnatural", "PredSixConvCentre",
   "PredSixFisherOR", "PredSixFisherP", "PredSixLogitNatCoef",
   "PredSixLogitNatP", "PredSixLogitMatchCoef", "PredSixLogitMatchP"]

def pipelineStatNames : List String :=
  pred1StatNames ++ pred2StatNames ++ pred4StatNames
    ++ pred5StatNames ++ pred6StatNames

/-- Claim C10: the mismatch classifier is total and three-valued: equal
sides (including two equal unrecognized codes) give `"Match"`, sides
forming exactly the set `{L, R}` give the within-axis label, and every
other row — including side values outside `{L, C, R}` — falls into the
cross-axis default bucket; no input is rejected. -/
theorem classify_mismatch_spec (ks gs : String) :
    (classify_mismatch ks gs = "Match"
      ∨ classify_mismatch ks gs = "Within-axis\nmismatch"
      ∨ classify_mismatch ks gs = "Cross-axis\nmismatch")
    ∧ (ks = gs → classify_mismatch ks gs = "Match")
    ∧ (({ks, gs} : Finset String) = {"L", "R"} →
        classify_mismatch ks gs = "Within-axis\nmismatch")
    ∧ (ks ≠ gs → ({ks, gs} : Finset String) ≠ {"L", "R"} →
        classify_mismatch ks gs = "Cross-axis\nmismatch") := by
  refine ⟨?_, ?_, ?_, ?_⟩
  · unfold classify_mismatch
    split_ifs <;> simp
  · intro h
    simp [classify_mismatch, h]
  · intro hset
    have hne : ks ≠ gs := by
      intro he
      subst he
      rw [Finset.pair_eq_singleton] at hset
      have hL : ("L" : String) ∈ ({ks} : Finset String) := by
        rw [hset]; simp
      have hR : ("R" : String) ∈ ({ks} : Finset String) := by
        rw [hset]; simp
      rw [Finset.mem_singleton] at hL hR
      rw [← hL] at hR
      exact absurd hR (by decide)
    rw [classify_mismatch, if_neg hne, if_pos hset]
  · intro hne hset
    rw [classify_mismatch, if_neg hne, if_neg hset]

/-- Witness for C10: each branch of `classify_mismatch_spec` discharged
at a concrete row, including an unrecognized side code `"Q"`. -/
theorem classify_mismatch_spec_witness :
    classify_mismatch "Q" "Q" = "Match"
    ∧ classify_mismatch "R" "L" = "Within-axis\nmismatch"
    ∧ classify_mismatch "C" "Q" = "Cross-axis\nmismatch" :=
  ⟨(classify_mismatch_spec "Q" "Q").2.1 rfl,
   (classify_mismatch_spec "R" "L").2.2.1 (by decide),
   (classify_mismatch_spec "C" "Q").2.2.2 (by decide) (by decide)⟩

/-- Central algebraic fact behind the Wilson interval bounds: when
`4N²S² = 4Np(1-p) + z²` (the squared numerator of the margin), the
half-width `2N·zS` dominates `±z²(1-2p)`, the scaled distance from the
point estimate to the interval centre. -/
lemma wilson_key (p z N S : ℚ) (hz : 0 ≤ z) (hp0 : 0 ≤ p) (hp1 : p ≤ 1)
    (hS0 : 0 ≤ S) (hS1 : 4 * N ^ 2 * S ^ 2 = 4 * N * (p * (1 - p)) + z ^ 2)
    (hN : 0 < N) :
    z ^ 2 * (1 - 2 * p) ≤ 2 * N * (z * S) ∧
    -(z ^ 2 * (1 - 2 * p)) ≤ 2 * N * (z * S) := by
  have hY : 0 ≤ 2 * N * (z * S) := by
    have := mul_nonneg hz hS0
    nlinarith
  have hdiff : (2 * N * (z * S)) ^ 2 - (z ^ 2 * (1 - 2 * p)) ^ 2
      = 4 * z ^ 2 * (p * (1 - p)) * (N + z ^ 2) := by
    linear_combination z ^ 2 * hS1
  have h1p : 0 ≤ 1 - p := by linarith
  have hpp : 0 ≤ p * (1 - p) := mul_nonneg hp0 h1p
  have hpos : 0 ≤ 4 * z ^ 2 * (p * (1 - p)) * (N + z ^ 2) := by
    have h4z : 0 ≤ 4 * z ^ 2 := by positivity
    have hNz : 0 ≤ N + z ^ 2 := by positivity
    exact mul_nonneg (mul_nonneg h4z hpp) hNz
  constructor <;> nlinarith [hY, hdiff, hpos]

/-- Claim C1: for every success count `k` and trial count `n` with
`0 ≤ k ≤ n` and `n > 0`, `_wilson_ci` returns `(point, lower, upper)`
with `lower ≤ point ≤ upper`, all three in `[0,1]`, and `point = k/n`;
for `n = 0` it returns exactly `(0,0,0)`.  `np.sqrt` is abstracted by
`sq`, constrained only at the argument the code applies it to. -/
theorem wilson_ci_spec (sq : ℚ → ℚ) (k n : ℕ) (z : ℚ)
    (hz : 0 ≤ z) (hkn : k ≤ n)
    (hsq0 : 0 ≤ sq (wilson_arg k n z))
    (hsq1 : sq (wilson_arg k n z) ^ 2 = wilson_arg k n z) :
    wilson_ci sq k 0 z = (0, 0, 0)
    ∧ (0 < n →
        (wilson_ci sq k n z).1 = (k : ℚ) / n
        ∧ (wilson_ci sq k n z).2.1 ≤ (wilson_ci sq k n z).1
        ∧ (wilson_ci sq k n z).1 ≤ (wilson_ci sq k n z).2.2
        ∧ 0 ≤ (wilson_ci sq k n z).1 ∧ (wilson_ci sq k n z).1 ≤ 1
        ∧ 0 ≤ (wilson_ci sq k n z).2.1 ∧ (wilson_ci sq k n z).2.1 ≤ 1
        ∧ 0 ≤ (wilson_ci sq k n z).2.2 ∧ (wilson_ci sq k n z).2.2 ≤ 1) := by
  constructor
  · simp [wilson_ci]
  intro hn
  have hN : (0 : ℚ) < (n : ℚ) := by exact_mod_cast hn
  have hNne : (n : ℚ) ≠ 0 := ne_of_gt hN
  set N : ℚ := (n : ℚ) with hNdef
  set p : ℚ := (k : ℚ) / N with hpdef
  set S : ℚ := sq (wilson_arg k n z) with hSdef
  have hp0 : 0 ≤ p := div_nonneg (Nat.cast_nonneg k) (le_of_lt hN)
  have hp1 : p ≤ 1 := by
    rw [hpdef, div_le_one hN, hNdef]
    exact_mod_cast hkn
  have hval : wilson_ci sq k n z =
      (p, max 0 ((p + z ^ 2 / (2 * N)) / (1 + z ^ 2 / N) - z * S / (1 + z ^ 2 / N)),
          min 1 ((p + z ^ 2 / (2 * N)) / (1 + z ^ 2 / N) + z * S / (1 + z ^ 2 / N))) := by
    rw [hSdef, hpdef, hNdef]
    simp only [wilson_ci, wilson_arg, if_neg (Nat.pos_iff_ne_zero.mp hn)]
  have hS1c : 4 * N ^ 2 * S ^ 2 = 4 * N * (p * (1 - p)) + z ^ 2 := by
    have harg : wilson_arg k n z = (p * (1 - p) + z ^ 2 / (4 * N)) / N := by
      rw [wilson_arg, hpdef, hNdef]
    have hsq : S ^ 2 = (p * (1 - p) + z ^ 2 / (4 * N)) / N := by
      rw [hSdef, hsq1, harg]
    have h4 : 4 * N ^ 2 * ((p * (1 - p) + z ^ 2 / (4 * N)) / N) =
        4 * N * (p * (1 - p)) + z ^ 2 := by
      field_simp
      ring
    rw [hsq, h4]
  have hkey := wilson_key p z N S hz hp0 hp1 hsq0 hS1c hN
  have hD : (0 : ℚ) < 1 + z ^ 2 / N := by positivity
  have h2N : (0 : ℚ) < 2 * N + 2 * z ^ 2 := by positivity
  -- rewrite centre ± margin over the common cleared denominator 2N + 2z²
  have hlo : (p + z ^ 2 / (2 * N)) / (1 + z ^ 2 / N) - z * S / (1 + z ^ 2 / N)
      = (2 * N * p + z ^ 2 - 2 * N * (z * S)) / (2 * N + 2 * z ^ 2) := by
    field_simp
    ring
  have hhi : (p + z ^ 2 / (2 * N)) / (1 + z ^ 2 / N) + z * S / (1 + z ^ 2 / N)
      = (2 * N * p + z ^ 2 + 2 * N * (z * S)) / (2 * N + 2 * z ^ 2) := by
    field_simp
    ring
  have hcm_le : (2 * N * p + z ^ 2 - 2 * N * (z * S)) / (2 * N + 2 * z ^ 2) ≤ p := by
    rw [div_le_iff₀ h2N]
    nlinarith [hkey.1]
  have hcp_ge : p ≤ (2 * N * p + z ^ 2 + 2 * N * (z * S)) / (2 * N + 2 * z ^ 2) := by
    rw [le_div_iff₀ h2N]
    nlinarith [hkey.2]
  rw [hval]
  refine ⟨rfl, ?_, ?_, hp0, hp1, ?_, ?_, ?_, ?_⟩
  · rw [hlo]
    exact max_le hp0 hcm_le
  · rw [hhi]
    exact le_min hp1 hcp_ge
  · exact le_max_left 0 _
  · rw [hlo]
    exact max_le zero_le_one (le_trans hcm_le hp1)
  · rw [hhi]
    exact le_min zero_le_one (le_trans hp0 hcp_ge)
  · exact min_le_left 1 _

/-- Witness for C1 at `k = 0`, `n = 1`, `z = 1.96`: the square root of
`wilson_arg 0 1 (49/25) = 2401/2500` is exactly `49/50`, so the constant
function `49/50` satisfies the square-root hypotheses there. -/
theorem wilson_ci_spec_witness :
    (0 : ℚ) ≤ 49 / 25 ∧ (0 : ℤ) ≤ 0 ∧
    wilson_ci (fun _ => 49 / 50) 0 0 (49 / 25) = (0, 0, 0) ∧
    (wilson_ci (fun _ => 49 / 50) 0 1 (49 / 25)).2.1
      ≤ (wilson_ci (fun _ => 49 / 50) 0 1 (49 / 25)).1 := by
  have h := wilson_ci_spec (fun _ => 49 / 50) 0 1 (49 / 25)
    (by norm_num) (by norm_num)
    (by norm_num [wilson_arg]) (by norm_num [wilson_arg])
  exact ⟨by norm_num, le_refl 0, h.1, ((h.2 (by norm_num)).2.1)⟩

lemma length_insertByMinute (r : BRow) (l : List BRow) :
    (insertByMinute r l).length = l.length + 1 := by
  induction l with
  | nil => rfl
  | cons s t ih =>
    simp only [insertByMinute]
    split_ifs
    · simp
    · simp [ih]

lemma mem_insertByMinute {x r : BRow} {l : List BRow} :
    x ∈ insertByMinute r l ↔ x = r ∨ x ∈ l := by
  induction l with
  | nil => simp [insertByMinute]
  | cons s t ih =>
    simp only [insertByMinute]
    split_ifs
    · simp
    · simp [ih]
      tauto

lemma length_sortByMinute (l : List BRow) :
    (sortByMinute l).length = l.length := by
  induction l with
  | nil => rfl
  | cons r t ih => simp [sortByMinute, length_insertByMinute, ih]

lemma mem_sortByMinute {x : BRow} {l : List BRow} :
    x ∈ sortByMinute l ↔ x ∈ l := by
  induction l with
  | nil => simp [sortByMinute]
  | cons r t ih => simp [sortByMinute, mem_insertByMinute, ih]

lemma pairwise_insertByMinute {r : BRow} {l : List BRow}
    (h : l.Pairwise (fun a b => a.minute ≤ b.minute)) :
    (insertByMinute r l).Pairwise (fun a b => a.minute ≤ b.minute) := by
  induction l with
  | nil => simp [insertByMinute]
  | cons s t ih =>
    rw [List.pairwise_cons] at h
    obtain ⟨hs, ht⟩ := h
    simp only [insertByMinute]
    split_ifs with hr
    · refine List.Pairwise.cons ?_ (List.Pairwise.cons hs ht)
      intro y hy
      rcases List.mem_cons.mp hy with hy | hy
      · rw [hy]; exact hr
      · exact le_trans hr (hs y hy)
    · refine List.Pairwise.cons ?_ (ih ht)
      intro y hy
      rcases mem_insertByMinute.mp hy with hy | hy
      · rw [hy]; exact le_of_lt (lt_of_not_le hr)
      · exact hs y hy

lemma pairwise_sortByMinute (l : List BRow) :
    (sortByMinute l).Pairwise (fun a b => a.minute ≤ b.minute) := by
  induction l with
  | nil => simp [sortByMinute]
  | cons r t ih => exact pairwise_insertByMinute ih

lemma matchId_of_mem_groupOf {df : List BRow} {m : String} {x : BRow}
    (hx : x ∈ groupOf df m) : matchId x = m := by
  rw [groupOf, mem_sortByMinute, List.mem_filter] at hx
  simpa using hx.2

lemma zip_tail_length {α : Type} (l : List α) :
    (l.zip l.tail).length = l.length - 1 := by
  cases l with
  | nil => rfl
  | cons a t => simp [List.length_zip]

lemma zip_tail_map_fst {α : Type} (l : List α) :
    (l.zip l.tail).map Prod.fst = l.dropLast := by
  induction l with
  | nil => rfl
  | cons a t ih =>
    cases t with
    | nil => rfl
    | cons b t' =>
      simp only [List.tail_cons] at ih ⊢
      rw [List.zip_cons_cons, List.map_cons, ih]
      simp [List.dropLast]

lemma zip_tail_map_snd {α : Type} (l : List α) :
    (l.zip l.tail).map Prod.snd = l.tail := by
  cases l with
  | nil => rfl
  | cons a t => exact List.map_snd_zip _ _ (by simp)

lemma zip_tail_getElem? {α : Type} (l : List α) (i : ℕ) :
    (l.zip l.tail)[i]? = (l[i]?.bind fun a => l[i + 1]?.map fun b => (a, b)) := by
  induction l generalizing i with
  | nil => simp
  | cons a t ih =>
    cases t with
    | nil => cases i <;> simp
    | cons b t' =>
      cases i with
      | zero => simp
      | succ j =>
        rw [List.tail_cons, List.zip_cons_cons]
        simpa using ih j

lemma mem_seqPairsAux {df : List BRow} {pr : BRow × BRow} :
    ∀ {ms : List String}, pr ∈ seqPairsAux df ms →
      ∃ m, pr ∈ pairsOfMatch df m := by
  intro ms
  induction ms with
  | nil => simp [seqPairsAux]
  | cons m ms ih =>
    intro h
    rcases List.mem_append.mp h with h | h
    · split_ifs at h with hc
      · exact ⟨m, h⟩
      · simp at h
    · exact ih h

/-- Claim C2: within each match group (keyed `date + sorted club pair`;
rows in minute order) the construction yields exactly `size − 1` pairs,
pairing each penalty with its immediate predecessor; the group's first
penalty is never the current element of a pair, a single-penalty group
yields no pairs, and no pair combines rows of two different groups. -/
theorem seq_pairs_spec (df : List BRow) (m : String) :
    (pairsOfMatch df m).length = (groupOf df m).length - 1
    ∧ ((groupOf df m).length ≤ 1 → pairsOfMatch df m = [])
    ∧ (pairsOfMatch df m).map Prod.fst = (groupOf df m).dropLast
    ∧ (pairsOfMatch df m).map Prod.snd = (groupOf df m).tail
    ∧ (∀ i : ℕ, (pairsOfMatch df m)[i]? =
        ((groupOf df m)[i]?.bind fun a => (groupOf df m)[i + 1]?.map fun b => (a, b)))
    ∧ (groupOf df m).Pairwise (fun a b => a.minute ≤ b.minute)
    ∧ (∀ pr ∈ pairsOfMatch df m, matchId pr.1 = m ∧ matchId pr.2 = m)
    ∧ (∀ pr ∈ seqPairs df, matchId pr.1 = matchId pr.2) := by
  refine ⟨zip_tail_length _, ?_, zip_tail_map_fst _, zip_tail_map_snd _,
      zip_tail_getElem? _, pairwise_sortByMinute _, ?_, ?_⟩
  · intro hlen
    have h0 : (pairsOfMatch df m).length = (groupOf df m).length - 1 :=
      zip_tail_length _
    exact List.eq_nil_of_length_eq_zero (by omega)
  · rintro ⟨x, y⟩ hpr
    obtain ⟨hx, hy⟩ := List.of_mem_zip hpr
    exact ⟨matchId_of_mem_groupOf hx,
      matchId_of_mem_groupOf (List.mem_of_mem_tail hy)⟩
  · intro pr hpr
    obtain ⟨m', hm'⟩ := mem_seqPairsAux hpr
    obtain ⟨x, y⟩ := pr
    obtain ⟨hx, hy⟩ := List.of_mem_zip hm'
    rw [matchId_of_mem_groupOf hx,
      matchId_of_mem_groupOf (List.mem_of_mem_tail hy)]

/-- Witness for C2: the three-kick match (minutes 10, 45, 80) yields
exactly two pairs and the single-kick match yields none; the second
conjunct applies `seq_pairs_spec` discharging its size hypothesis. -/
theorem seq_pairs_spec_witness :
    (pairsOfMatch exDf (matchId bRow1)).length = 2
    ∧ pairsOfMatch exDf (matchId bRowSolo) = [] := by
  constructor
  · rw [(seq_pairs_spec exDf (matchId bRow1)).1]
    decide
  · exact (seq_pairs_spec exDf (matchId bRowSolo)).2.1 (by decide)

lemma replaceAll_nil (p r : List Char) : replaceAll p r [] = [] := by
  unfold replaceAll
  split_ifs with h
  · rcases p with _ | ⟨a, as⟩
    · exact absurd rfl h.1
    · simp [List.isPrefixOf] at h
  · rfl

lemma replaceAll_pos (p r s : List Char) (hp : p ≠ []) (hpre : p.isPrefixOf s) :
    replaceAll p r s = r ++ replaceAll p r (s.drop p.length) := by
  conv_lhs => rw [replaceAll]
  rw [dif_pos ⟨hp, hpre⟩]

lemma replaceAll_cons_neg (p r : List Char) (c : Char) (t : List Char)
    (h : ¬ p.isPrefixOf (c :: t)) :
    replaceAll p r (c :: t) = c :: replaceAll p r t := by
  conv_lhs => rw [replaceAll]
  rw [dif_neg fun hc => h hc.2]

lemma replaceAll_singleton (c : Char) (r s : List Char) :
    replaceAll [c] r s = expand (fun a => if a = c then r else [a]) s := by
  induction s with
  | nil => simp [replaceAll_nil, expand]
  | cons a t ih =>
    by_cases h : a = c
    · subst h
      rw [replaceAll_pos _ _ _ (by simp) (by simp [List.isPrefixOf])]
      simp [expand, ih]
    · rw [replaceAll_cons_neg _ _ _ _ (by simp [List.isPrefixOf, Ne.symm h])]
      simp [expand, h, ih]

lemma expand_head_ne (c : Char) (hc : c ≠ '\\') (t : List Char) :
    ¬ [c].isPrefixOf (expand (fun a => if a = c then ['\\', c] else [a]) t) := by
  cases t with
  | nil => simp [expand, List.isPrefixOf]
  | cons x xs =>
    by_cases h : x = c
    · subst h
      simp [expand, List.isPrefixOf, hc]
    · simp [expand, List.isPrefixOf, h, Ne.symm h]

lemma expand_cancel_pair (c : Char) (hc : c ≠ '\\') (s : List Char) :
    replaceAll ['\\', c] [c]
      (expand (fun a => if a = c then ['\\', c] else [a]) s) = s := by
  induction s with
  | nil => simp [expand, replaceAll_nil]
  | cons a t ih =>
    by_cases h : a = c
    · subst h
      have he : expand (fun x => if x = a then ['\\', a] else [x]) (a :: t)
          = '\\' :: a :: expand (fun x => if x = a then ['\\', a] else [x]) t := by
        simp [expand]
      rw [he, replaceAll_pos _ _ _ (by simp) (by simp [List.isPrefixOf])]
      simpa using ih
    · have he : expand (fun x => if x = c then ['\\', c] else [x]) (a :: t)
          = a :: expand (fun x => if x = c then ['\\', c] else [x]) t := by
        simp [expand, h]
      rw [he]
      by_cases hb : a = '\\'
      · subst hb
        rw [replaceAll_cons_neg _ _ _ _ (by
          simp only [List.isPrefixOf, beq_self_eq_true, Bool.true_and]
          exact_mod_cast expand_head_ne c hc t)]
        rw [ih]
      · rw [replaceAll_cons_neg _ _ _ _ (by simp [List.isPrefixOf, Ne.symm hb])]
        rw [ih]

lemma expand_cancel_backslash (s : List Char) :
    replaceAll texBackslash ['\\']
      (expand (fun a => if a = '\\' then texBackslash else [a]) s) = s := by
  induction s with
  | nil => simp [expand, replaceAll_nil]
  | cons a t ih =>
    by_cases h : a = '\\'
    · subst h
      have he : expand (fun x => if x = '\\' then texBackslash else [x]) ('\\' :: t)
          = texBackslash ++ expand (fun x => if x = '\\' then texBackslash else [x]) t := by
        simp [expand]
      rw [he, replaceAll_pos _ _ _ (by simp [texBackslash])
        (List.isPrefixOf_iff_prefix.mpr (List.prefix_append _ _)),
        List.drop_left]
      simpa using ih
    · have he : expand (fun x => if x = '\\' then texBackslash else [x]) (a :: t)
          = a :: expand (fun x => if x = '\\' then texBackslash else [x]) t := by
        simp [expand, h]
      rw [he]
      rw [replaceAll_cons_neg _ _ _ _ (by simp [texBackslash, List.isPrefixOf, Ne.symm h])]
      rw [ih]

lemma cancel_step (c : Char) (hc : c ≠ '\\') (x : List Char) :
    replaceAll ['\\', c] [c] (replaceAll [c] ['\\', c] x) = x := by
  rw [replaceAll_singleton]
  exact expand_cancel_pair c hc x

lemma cancel_backslash_step (x : List Char) :
    replaceAll texBackslash ['\\'] (replaceAll ['\\'] texBackslash x) = x := by
  rw [replaceAll_singleton]
  exact expand_cancel_backslash x

lemma unescapeChars_escapeChars (s : List Char) :
    unescapeChars (escapeChars s) = s := by
  unfold escapeChars unescapeChars
  rw [cancel_step '%' (by decide), cancel_step '$' (by decide),
    cancel_step '#' (by decide), cancel_step '&' (by decide),
    cancel_step '_' (by decide), cancel_backslash_step]

lemma unescape_escape (s : String) : unescape (escape s) = s := by
  cases s with
  | mk d => simp [escape, unescape, unescapeChars_escapeChars]

/-- Claim C4: registering `N` named stats yields exactly `N` macro
lines, the `i`-th being the `newcommand` line for the `i`-th pair with
the value escaped; inverting the five replacements in the reverse of the
order they were applied recovers every value exactly, so the escaping is
injective and write/read is the identity on `(name, value)` pairs. -/
theorem ledger_roundtrip :
    (∀ pairs : List (String × String),
        (addStats pairs).length = pairs.length
        ∧ ∀ i : ℕ, (addStats pairs)[i]? =
            (pairs[i]?.map fun pr => statLine pr.1 pr.2))
    ∧ (∀ v : String, unescape (escape v) = v)
    ∧ Function.Injective escape := by
  refine ⟨fun pairs => ⟨List.length_map _ _, fun i => List.getElem?_map _ _ _⟩,
    unescape_escape, ?_⟩
  intro a b h
  have hu := congrArg unescape h
  rwa [unescape_escape, unescape_escape] at hu

/-- Claim C3: the likelihood-ratio statistic equals
`−2 × (llf_restricted − llf_full)`; whenever both fits succeed — i.e.
each model attains the maximum of the (dataset-dependent) log-likelihood
`L` over its own family, the linear family being the quadratic one at
`gkexp2 = 0` — the statistic is nonnegative, and the chi-squared
survival function `sf` (scipy's `chi2.sf`, a probability) puts the
p-value in `[0,1]`. -/
theorem lr_test_spec (L : ℚ × ℚ × ℚ → ℚ) (linML : ℚ × ℚ) (quadML : ℚ × ℚ × ℚ)
    (sf : ℚ → ℚ)
    (hquad : ∀ θ, L θ ≤ L quadML)
    (_hlin : ∀ b, L (quadOfLin b) ≤ L (quadOfLin linML))
    (hsf : ∀ x, 0 ≤ sf x ∧ sf x ≤ 1) :
    lrStat (L (quadOfLin linML)) (L quadML)
      = -2 * (L (quadOfLin linML) - L quadML)
    ∧ 0 ≤ lrStat (L (quadOfLin linML)) (L quadML)
    ∧ 0 ≤ sf (lrStat (L (quadOfLin linML)) (L quadML))
    ∧ sf (lrStat (L (quadOfLin linML)) (L quadML)) ≤ 1 := by
  have hle : L (quadOfLin linML) ≤ L quadML := hquad (quadOfLin linML)
  refine ⟨rfl, ?_, (hsf _).1, (hsf _).2⟩
  simp only [lrStat]
  linarith

/-- Witness for C3 at the constant log-likelihood and `sf = 1/2`. -/
theorem lr_test_spec_witness :
    lrStat 0 0 = -2 * ((0 : ℚ) - 0) ∧ (0 : ℚ) ≤ lrStat 0 0 := by
  have h := lr_test_spec (fun _ => 0) (0, 0) (0, 0, 0) (fun _ => 1 / 2)
    (fun _ => le_refl 0) (fun _ => le_refl 0) (fun _ => by norm_num)
  exact ⟨h.1, h.2.1⟩

/-- Counterexample to C5: the likelihood-ratio computation of the
pipeline performs no nesting check — on two models with identical
(hence not strictly nested) parameter sets it returns a statistic
instead of failing. -/
theorem lr_nesting_counterexample :
    strictSubsetB (FittedLogit.mk ["Intercept", "gkexp"] (-100)).params
        (FittedLogit.mk ["Intercept", "gkexp"] (-90)).params = false
    ∧ lrCompare (FittedLogit.mk ["Intercept", "gkexp"] (-100))
        (FittedLogit.mk ["Intercept", "gkexp"] (-90))
      = Except.ok (lrStat (-100) (-90)) :=
  ⟨by decide, rfl⟩

/-- Amended C5: the comparison never raises — it returns
`−2(llf_r − llf_f)` for every pair of fitted models — and the one pair
the pipeline actually compares, linear `{Intercept, gkexp}` against
quadratic `{Intercept, gkexp, gkexp2}`, is strictly nested by
construction. -/
theorem lr_nesting_amended :
    (∀ r f : FittedLogit, lrCompare r f = Except.ok (lrStat r.llf f.llf))
    ∧ strictSubsetB linParams quadParams = true :=
  ⟨fun _ _ => rfl, by decide⟩

/-- Claim C6: the reported peak is `−b1/(2·b2)` when `b2 ≠ 0` — and for
`b2 < 0` it is the maximizer of the quadratic log-odds curve — and is
`NaN`, ledgered as `"nan"`, when `b2 = 0`. -/
theorem peak_exp_spec (b0 b1 b2 : ℚ) (fmt : ℚ → String) :
    (b2 ≠ 0 → peakExp b1 b2 = some (-b1 / (2 * b2))
      ∧ peakStat fmt b1 b2 = fmt (-b1 / (2 * b2)))
    ∧ (b2 = 0 → peakExp b1 b2 = none ∧ peakStat fmt b1 b2 = "nan")
    ∧ (b2 < 0 → ∀ x : ℚ,
        quadLogOdds b0 b1 b2 x ≤ quadLogOdds b0 b1 b2 (-b1 / (2 * b2))) := by
  refine ⟨?_, ?_, ?_⟩
  · intro h
    exact ⟨by simp [peakExp, h], by simp [peakStat, peakExp, h]⟩
  · intro h
    exact ⟨by simp [peakExp, h], by simp [peakStat, peakExp, h]⟩
  · intro hneg x
    have hb2 : b2 ≠ 0 := ne_of_lt hneg
    rw [← sub_nonneg]
    have h2 : quadLogOdds b0 b1 b2 (-b1 / (2 * b2)) - quadLogOdds b0 b1 b2 x
        = -((2 * b2 * x + b1) ^ 2) / (4 * b2) := by
      unfold quadLogOdds
      field_simp
      ring
    rw [h2, div_nonneg_iff]
    right
    constructor
    · simpa using sq_nonneg (2 * b2 * x + b1)
    · linarith

/-- Witness for C6: both branches and the vertex bound discharged at
concrete coefficients. -/
theorem peak_exp_spec_witness :
    peakExp 3 (-1) = some (-3 / (2 * (-1)))
    ∧ peakExp 5 0 = none
    ∧ peakStat (fun _ => "7.5") 5 0 = "nan"
    ∧ quadLogOdds 1 3 (-1) 0 ≤ quadLogOdds 1 3 (-1) (-3 / (2 * (-1))) :=
  ⟨((peak_exp_spec 1 3 (-1) (fun _ => "7.5")).1 (by norm_num)).1,
   ((peak_exp_spec 1 5 0 (fun _ => "7.5")).2.1 rfl).1,
   ((peak_exp_spec 1 5 0 (fun _ => "7.5")).2.1 rfl).2,
   ((peak_exp_spec 1 3 (-1) (fun _ => "7.5")).2.2 (by norm_num)) 0⟩

/-- Counterexample to C7: the Prediction 4 fit stage has no
`try`/`except` — a failing fit propagates its error (aborting the
module) instead of being replaced by a sentinel. -/
theorem fit_guard_counterexample :
    pred4FitStage (Except.error "fit did not converge")
        (Except.ok ((0, 0) : ℚ × ℚ))
      = Except.error "fit did not converge" := rfl

/-- Amended C7: only the Prediction 2 logistic fit catches failures,
substituting the sentinel `(coef, p) = (0.0, 1.0)` and continuing; the
Prediction 4 and Prediction 6 fit stages propagate a fit failure. -/
theorem fit_guard_amended :
    (∀ e : String, pred2LogitStats (Except.error e) = (0, 1))
    ∧ (∀ cp : ℚ × ℚ, pred2LogitStats (Except.ok cp) = cp)
    ∧ (∀ (M : Type) (e : String) (q : Except String M),
        pred4FitStage (Except.error e) q = Except.error e)
    ∧ (∀ (M : Type) (e : String) (a : M),
        pred4FitStage (Except.ok a) (Except.error e) = Except.error e)
    ∧ (∀ (M : Type) (stats : M → ℚ × ℚ × ℚ × ℚ) (e : String),
        pred6FitStage stats (Except.error e) = Except.error e) :=
  ⟨fun _ => rfl, fun _ => rfl, fun _ _ _ => rfl, fun _ _ _ => rfl,
   fun _ _ _ => rfl⟩

/-- Claim C8: the sequence of stat macro names registered across the
five prediction modules of a full `run_all` pipeline contains no
duplicate, so every named statistic is written exactly once per run. -/
theorem stat_names_nodup : pipelineStatNames.Nodup := by decide

/-- Claim C9: the risk difference is the difference of the two
conditional proportions with a `±1.96 × pooled-SE` 95% CI, and a
zero-member group yields `NaN` (`none`) for estimate and CI instead of
an error. -/
theorem risk_diff_spec (sq : ℚ → ℚ) (df : List (Bool × Bool)) :
    ((nAfter true df = 0 ∨ nAfter false df = 0) →
        riskDiff df = none ∧ rdCiLo sq df = none ∧ rdCiHi sq df = none)
    ∧ (∀ p1 p2 : ℚ,
        goalAfterGoal df = some p1 → goalAfterNonGoal df = some p2 →
        riskDiff df = some (p1 - p2)
        ∧ rdCiLo sq df = some ((p1 - p2)
            - 1.96 * sq (p1 * (1 - p1) / (nAfter true df : ℚ)
              + p2 * (1 - p2) / (nAfter false df : ℚ)))
        ∧ rdCiHi sq df = some ((p1 - p2)
            + 1.96 * sq (p1 * (1 - p1) / (nAfter true df : ℚ)
              + p2 * (1 - p2) / (nAfter false df : ℚ)))) := by
  constructor
  · intro h
    rcases h with h | h
    · have hg : goalAfterGoal df = none := by
        rw [goalAfterGoal, meanBool, if_pos]
        simpa [nAfter] using h
      exact ⟨by simp [riskDiff, hg], by simp [rdCiLo, riskDiff, hg],
        by simp [rdCiHi, riskDiff, hg]⟩
    · have hg : goalAfterNonGoal df = none := by
        rw [goalAfterNonGoal, meanBool, if_pos]
        simpa [nAfter] using h
      exact ⟨by simp [riskDiff, hg], by simp [rdCiLo, riskDiff, hg],
        by simp [rdCiHi, riskDiff, hg]⟩
  · intro p1 p2 h1 h2
    refine ⟨by simp [riskDiff, h1, h2], ?_, ?_⟩
    · simp [rdCiLo, riskDiff, seRD, h1, h2]
    · simp [rdCiHi, riskDiff, seRD, h1, h2]

/-- Witness for C9: a dataset with an empty prev-non-goal group gives
`none`; a dataset with both groups present gives the proportion
difference. -/
theorem risk_diff_spec_witness :
    riskDiff ([(true, true)] : List (Bool × Bool)) = none
    ∧ riskDiff ([(true, true), (false, false)] : List (Bool × Bool))
      = some (1 - 0) := by
  constructor
  · exact ((risk_diff_spec id _).1 (Or.inr (by decide))).1
  · refine ((risk_diff_spec id _).2 1 0 ?_ ?_).1
    · simp [goalAfterGoal, goalsAfter, meanBool]
    · simp [goalAfterNonGoal, goalsAfter, meanBool]

end OfTwoMinds
